import Mathlib

/-!
Verification of the label-driven container job scheduler (`scheduler.py`).

The Python module is shallowly embedded below:

* Python `str` becomes Lean `String`; `s[:n]` becomes `pyTake`,
  `s.lower()` becomes `pyLower`, `s.startswith(p)` becomes `pyStartsWith`,
  and `s.split('.')` becomes `pySplit` (all defined over the underlying
  character lists so that they compute by kernel reduction).
* A container's label dictionary becomes an association list
  `List (String × String)` in insertion order with unique keys, matching
  Python `dict` iteration; `dict.get` becomes `List.lookup`.
* The APScheduler job store becomes a `List JobRecord`; `add_job` appends,
  and the remove-by-id loops over `get_jobs()` become a `filter`
  (`removeByPrefix`).
* The external cron parser `CronTrigger.from_crontab` becomes an abstract
  oracle `cronOk : String → Bool` (`true` = parses, `false` = raises
  `ValueError`).
* Fallible runtime calls become explicit `Except` values fed to the
  embedded function; log emission is made explicit as a `List LogEntry`.
-/

/-- Python `s[:n]`: the first `n` characters of a string. -/
def pyTake (s : String) (n : Nat) : String := ⟨s.data.take n⟩

/-- Python `s.lower()` (ASCII case folding, as used by the labels here). -/
def pyLower (s : String) : String := ⟨s.data.map Char.toLower⟩

/-- Python `s.startswith(p)`. -/
def pyStartsWith (s p : String) : Bool := p.data.isPrefixOf s.data

/-- Splitting a character list on a separator character, keeping empty
segments, exactly as Python `str.split` with an explicit separator does
(`"".split('.') == ['']`, `"a..b".split('.') == ['a','','b']`). -/
def splitChars (sep : Char) : List Char → List (List Char)
  | [] => [[]]
  | c :: rest =>
    if c = sep then [] :: splitChars sep rest
    else
      match splitChars sep rest with
      | s :: ss => (c :: s) :: ss
      | [] => [[c]]

/-- Python `s.split(sep)` for a one-character separator. -/
def pySplit (s : String) (sep : Char) : List String :=
  (splitChars sep s.data).map (fun l => ⟨l⟩)

/-- A container as the scheduler sees it: full id, name, and its label
dictionary (association list in insertion order, keys unique). -/
structure ContainerRef where
  id : String
  name : String
  labels : List (String × String)
deriving DecidableEq

/-- The job dict built by `validate_jobs`:
`{"id", "container_name", "container_id", "schedule", "command"}`. -/
structure JobRecord where
  id : String
  container_name : String
  container_id : String
  schedule : String
  command : String
deriving DecidableEq

/-- The partial per-job group collected by `extract_raw_jobs`:
`raw_jobs[job_name]` may hold a `schedule` and/or a `command`. -/
structure RawProps where
  schedule : Option String
  command : Option String
deriving DecidableEq

/-- `is_scheduler_enabled(container)`:
`container.labels.get("scheduler.enable", "").lower() == "true"`. -/
def is_scheduler_enabled (container : ContainerRef) : Bool :=
  pyLower ((container.labels.lookup "scheduler.enable").getD "") == "true"

/-- `raw_jobs[job_name][prop] = value` on the association-list
representation of the Python dict-of-dicts: update the existing group for
`job_name` in place, or append a fresh one. `prop` is always
`"schedule"` or `"command"` at the call site. -/
def updateGroup (groups : List (String × RawProps)) (job_name prop value : String) :
    List (String × RawProps) :=
  match groups with
  | [] =>
    if prop = "schedule" then [(job_name, ⟨some value, none⟩)]
    else [(job_name, ⟨none, some value⟩)]
  | (n, p) :: rest =>
    if n = job_name then
      (if prop = "schedule" then (n, { p with schedule := some value }) :: rest
       else (n, { p with command := some value }) :: rest)
    else (n, p) :: updateGroup rest job_name prop value

/-- The body of the `extract_raw_jobs` loop for one label `kv`: skip keys
that do not start with `"scheduler."`, keys with other than three
dot-separated parts (such as `scheduler.enable`), and properties other
than `schedule`/`command`; otherwise store the value under
`raw_jobs[job_name][prop]`. -/
def extractStep (raw_jobs : List (String × RawProps)) (kv : String × String) :
    List (String × RawProps) :=
  if !pyStartsWith kv.1 "scheduler." then raw_jobs
  else
    match pySplit kv.1 '.' with
    | [_, job_name, prop] =>
      if prop = "schedule" ∨ prop = "command" then
        updateGroup raw_jobs job_name prop kv.2
      else raw_jobs
    | _ => raw_jobs

/-- `extract_raw_jobs(labels)`: collect raw schedule/command pairs from
`scheduler.<job>.<prop>` labels. -/
def extract_raw_jobs (labels : List (String × String)) : List (String × RawProps) :=
  labels.foldl extractStep []

/-- Python truthiness of `props.get(...)`: `None` and `""` are falsy. -/
def truthy (o : Option String) : Bool :=
  match o with
  | none => false
  | some s => s ≠ ""

/-- The body of the `validate_jobs` loop for one raw group `g`: skip
incomplete groups (`if not schedule or not command`), skip groups whose
schedule `CronTrigger.from_crontab` rejects, and append the job dict
otherwise. -/
def validateStep (cronOk : String → Bool) (container : ContainerRef)
    (jobs : List JobRecord) (g : String × RawProps) : List JobRecord :=
  let schedule := g.2.schedule
  let command := g.2.command
  if !truthy schedule || !truthy command then jobs
  else if !cronOk (schedule.getD "") then jobs
  else
    let cont_short_id := pyTake container.id 12
    let job_id := cont_short_id ++ "_" ++ g.1
    jobs ++ [{ id := job_id
             , container_name := container.name
             , container_id := cont_short_id
             , schedule := schedule.getD ""
             , command := command.getD "" }]

/-- `validate_jobs(container, raw_jobs)`: keep only groups that have both
a (non-empty) `schedule` and `command` and whose schedule the cron parser
accepts, and build the final job dicts in iteration order. -/
def validate_jobs (cronOk : String → Bool) (container : ContainerRef)
    (raw_jobs : List (String × RawProps)) : List JobRecord :=
  raw_jobs.foldl (validateStep cronOk container) []

/-- The remove loop shared by `sync_container` and `watch_events`:
`for job in scheduler.get_jobs(): if job.id.startswith(pfx): scheduler.remove_job(job.id)`. -/
def removeByPrefix (table : List JobRecord) (pfx : String) : List JobRecord :=
  table.filter (fun job => !pyStartsWith job.id pfx)

/-- `sync_container(container)` acting on the job table: remove every job
of this container, stop if scheduling is disabled, otherwise re-add the
extracted and validated jobs (`add_job` appends; the freshly validated
schedule cannot make `CronTrigger.from_crontab` raise again, and the new
ids carry the just-purged prefix, so no `ConflictingIdError` arises). -/
def sync_container (cronOk : String → Bool) (container : ContainerRef)
    (table : List JobRecord) : List JobRecord :=
  let cont_id := pyTake container.id 12
  let pfx := cont_id ++ "_"
  let table1 := removeByPrefix table pfx
  if !is_scheduler_enabled container then table1
  else
    let raw := extract_raw_jobs container.labels
    let jobs := validate_jobs cronOk container raw
    table1 ++ jobs

/-- A Docker lifecycle event: `Action` and the (full) container id. -/
structure LifecycleEvent where
  action : String
  id : String
deriving DecidableEq

/-- What one iteration of the `watch_events` loop did: which container
ids it looked up via `docker_client.containers.get`, and the job table it
left behind. -/
structure EventOutcome where
  lookups : List String
  table : List JobRecord
deriving DecidableEq

/-- One iteration of the `watch_events` loop. The code fetches the
container (tolerating `NotFound`) for EVERY event — the result is used
for the log line's name — and then dispatches on the action: sync on
`start`/`update`/`unpause` when the container still exists, remove the
container's jobs on `stop`/`die`/`destroy`/`pause`, ignore the rest. -/
def handle_event (cronOk : String → Bool) (resolve : String → Option ContainerRef)
    (table : List JobRecord) (event : LifecycleEvent) : EventOutcome :=
  let cid := pyTake event.id 12
  let cont := resolve cid
  if (event.action = "start" ∨ event.action = "update" ∨ event.action = "unpause")
      ∧ cont.isSome then
    { lookups := [cid]
    , table := sync_container cronOk (cont.getD ⟨"", "", []⟩) table }
  else if event.action = "stop" ∨ event.action = "die" ∨ event.action = "destroy"
      ∨ event.action = "pause" then
    { lookups := [cid], table := removeByPrefix table (cid ++ "_") }
  else
    { lookups := [cid], table := table }

/-- Severity of an emitted log line. -/
inductive LogLevel where
  | info
  | error
deriving DecidableEq

/-- One structured log line. -/
structure LogEntry where
  level : LogLevel
  text : String
deriving DecidableEq

/-- The outcome of `docker_client.containers.get(cid).exec_run(...)`:
exit code and decoded combined output. -/
structure ExecRunResult where
  exit_code : Int
  output : String
deriving DecidableEq

/-- `execute_job(job)`. The runtime call (container lookup plus
`exec_run`) is passed in as an `Except`: `Except.error e` is a raised
exception (container vanished, socket error), `Except.ok r` a completed
execution. The embedding returns the emitted log lines; `Except.error`
in the RESULT position would mean `execute_job` itself raised, which the
`try`/`except` in the source prevents. -/
def execute_job (job : JobRecord) (runResult : Except String ExecRunResult) :
    Except String (List LogEntry) :=
  let startLog : LogEntry := ⟨LogLevel.info, "Runnig job " ++ job.id ++ " in " ++ job.container_name⟩
  match runResult with
  | Except.error e =>
    Except.ok [startLog,
      ⟨LogLevel.error, "Error running job " ++ job.id ++ " in " ++ job.container_name
        ++ " (" ++ job.container_id ++ "): " ++ e⟩]
  | Except.ok r =>
    if r.exit_code ≠ 0 then
      Except.ok [startLog,
        ⟨LogLevel.error, "Job " ++ job.id ++ " in " ++ job.container_name
          ++ " (" ++ job.container_id ++ ") exited with code "
          ++ toString r.exit_code ++ ": " ++ r.output⟩]
    else
      Except.ok [startLog]

/-- A raw group passes `validate_jobs`' checks exactly when both
properties are present and non-empty and the cron oracle accepts the
schedule. -/
def passesValidation (cronOk : String → Bool) (p : RawProps) : Bool :=
  truthy p.schedule && truthy p.command && cronOk (p.schedule.getD "")

/-- The job dict `validate_jobs` builds for an accepted group. -/
def mkJobRecord (container : ContainerRef) (g : String × RawProps) : JobRecord :=
  { id := pyTake container.id 12 ++ "_" ++ g.1
  , container_name := container.name
  , container_id := pyTake container.id 12
  , schedule := g.2.schedule.getD ""
  , command := g.2.command.getD "" }

/-- A raw group records property `prop` (`schedule` or `command`). -/
def propPresent (prop : String) (p : RawProps) : Bool :=
  if prop = "schedule" then p.schedule.isSome
  else if prop = "command" then p.command.isSome
  else false

/-- `extract_raw_jobs` output has an entry recording property `prop` for
job `name`. -/
def hasEntry (groups : List (String × RawProps)) (name prop : String) : Bool :=
  groups.any (fun g => g.1 == name && propPresent prop g.2)

/-- The claim's description of a contributing label key: exactly three
dot-separated segments, first literally `scheduler`, second the
job-name, third a property in `{schedule, command}`. -/
def isJobPropKey (key name prop : String) : Bool :=
  (pySplit key '.' == ["scheduler", name, prop])
    && (prop == "schedule" || prop == "command")

/-- A sample container used to exercise the theorems on concrete data:
the spec's scenario container `c1`. -/
def sampleContainer : ContainerRef :=
  { id := "abcdef012345ffff", name := "c1"
  , labels := [("scheduler.enable", "true"),
               ("scheduler.backup.schedule", "0 2 * * *"),
               ("scheduler.backup.command", "tar czf /b.tgz /data")] }

/-- The same container with `scheduler.enable` set to `"TRUE "`
(trailing space), which must count as disabled. -/
def disabledContainer : ContainerRef :=
  { id := "abcdef012345ffff", name := "c1"
  , labels := [("scheduler.enable", "TRUE "),
               ("scheduler.backup.schedule", "0 2 * * *"),
               ("scheduler.backup.command", "tar czf /b.tgz /data")] }

/-- A concrete stand-in for the external cron parser. -/
def sampleCron : String → Bool := fun s => s == "0 2 * * *" || s == "* * * * *"

/-- A sample job record (the one reconciling `sampleContainer` yields). -/
def sampleJob : JobRecord :=
  { id := "abcdef012345_backup", container_name := "c1"
  , container_id := "abcdef012345", schedule := "0 2 * * *"
  , command := "tar czf /b.tgz /data" }

/-- A job belonging to a different container. -/
def otherJob : JobRecord :=
  { id := "ffff00000000_x", container_name := "other"
  , container_id := "ffff00000000", schedule := "* * * * *", command := "echo" }

/-- A job whose id shares 7 characters with the prefix `"abc123_"` but
does not start with it (`"abc1234_x"`). -/
def strayJob : JobRecord :=
  { id := "abc1234_x", container_name := "o", container_id := "abc1234"
  , schedule := "* * * * *", command := "echo" }

/-- A sample job table holding one job of `sampleContainer` and one of
another container. -/
def sampleTable : List JobRecord := [sampleJob, otherJob]

/-- Raw groups with one complete job and one missing its schedule. -/
def rawSample : List (String × RawProps) :=
  [("backup", ⟨some "0 2 * * *", some "tar czf /b.tgz /data"⟩),
   ("broken", ⟨none, some "echo hi"⟩)]

/-- Raw groups with one complete job and one whose schedule is the empty
string. -/
def rawSampleEmpty : List (String × RawProps) :=
  [("backup", ⟨some "0 2 * * *", some "tar czf /b.tgz /data"⟩),
   ("empty", ⟨some "", some "echo hi"⟩)]


example : pySplit "scheduler.backup.schedule" '.' = ["scheduler", "backup", "schedule"] := by decide
example : pySplit "scheduler.enable" '.' = ["scheduler", "enable"] := by decide
example : pyStartsWith "abc1234_x" "abc123_" = false := by decide
example : pyLower "TRUE " = "true " := by decide
example : is_scheduler_enabled ⟨"c", "n", [("scheduler.enable", "TRUE")]⟩ = true := by decide
example : is_scheduler_enabled ⟨"c", "n", [("scheduler.enable", "TRUE ")]⟩ = false := by decide
example : is_scheduler_enabled ⟨"c", "n", []⟩ = false := by decide
example :
    extract_raw_jobs [("scheduler.enable", "true"),
                      ("scheduler.backup.schedule", "0 2 * * *"),
                      ("scheduler.backup.command", "tar czf /b.tgz /data")]
      = [("backup", ⟨some "0 2 * * *", some "tar czf /b.tgz /data"⟩)] := by decide
example :
    validate_jobs (fun _ => true) ⟨"abcdef012345ffff", "c1", []⟩
      [("backup", ⟨some "0 2 * * *", some "tar czf /b.tgz /data"⟩)]
      = [{ id := "abcdef012345_backup", container_name := "c1",
           container_id := "abcdef012345", schedule := "0 2 * * *",
           command := "tar czf /b.tgz /data" }] := by decide

/-! Basic helpers on character lists and strings. -/

theorem isPrefixOf_append_self : ∀ (p t : List Char), p.isPrefixOf (p ++ t) = true
  | [], _ => by simp
  | c :: p, t => by
    show (c == c && p.isPrefixOf (p ++ t)) = true
    simp [isPrefixOf_append_self p t]

theorem string_data_append (s t : String) : (s ++ t).data = s.data ++ t.data := by
  cases s
  cases t
  rfl

theorem string_ext_data : ∀ {s t : String}, s.data = t.data → s = t
  | ⟨_⟩, ⟨_⟩, rfl => rfl

theorem pyStartsWith_append_self (s t : String) : pyStartsWith (s ++ t) s = true := by
  unfold pyStartsWith
  rw [string_data_append]
  exact isPrefixOf_append_self s.data t.data

theorem string_append_cancel_left {a b c : String} (h : a ++ b = a ++ c) : b = c := by
  apply string_ext_data
  have hd : a.data ++ b.data = a.data ++ c.data := by
    rw [← string_data_append, ← string_data_append, h]
  exact List.append_cancel_left hd

/-! Helpers about `filter`-based table operations. -/

theorem filter_filter_not (p : α → Bool) :
    ∀ (l : List α), (l.filter (fun a => !p a)).filter p = []
  | [] => rfl
  | a :: l => by
    by_cases h : p a = true
    · simp [List.filter_cons, h, filter_filter_not p l]
    · simp [List.filter_cons, h, filter_filter_not p l]

theorem filter_not_idem (p : α → Bool) :
    ∀ (l : List α), (l.filter (fun a => !p a)).filter (fun a => !p a)
      = l.filter (fun a => !p a)
  | [] => rfl
  | a :: l => by
    by_cases h : p a = true
    · simp [List.filter_cons, h, filter_not_idem p l]
    · simp [List.filter_cons, h, filter_not_idem p l]

theorem removeByPrefix_keeps_no_match (table : List JobRecord) (pfx : String) :
    (removeByPrefix table pfx).filter (fun j => pyStartsWith j.id pfx) = [] :=
  filter_filter_not (fun j => pyStartsWith j.id pfx) table

theorem removeByPrefix_idem (table : List JobRecord) (pfx : String) :
    removeByPrefix (removeByPrefix table pfx) pfx = removeByPrefix table pfx := by
  unfold removeByPrefix
  exact filter_not_idem _ table

/-! Characterization of `validate_jobs`: it is exactly a filter by
`passesValidation` followed by building the job dicts. -/

theorem validateStep_eq (cronOk : String → Bool) (container : ContainerRef)
    (jobs : List JobRecord) (g : String × RawProps) :
    validateStep cronOk container jobs g =
      if passesValidation cronOk g.2 then jobs ++ [mkJobRecord container g] else jobs := by
  unfold validateStep passesValidation mkJobRecord
  cases h1 : truthy g.2.schedule <;> cases h2 : truthy g.2.command <;>
    cases h3 : cronOk (g.2.schedule.getD "") <;> simp [h1, h2, h3]

theorem validate_jobs_foldl (cronOk : String → Bool) (container : ContainerRef) :
    ∀ (raw_jobs : List (String × RawProps)) (acc : List JobRecord),
      raw_jobs.foldl (validateStep cronOk container) acc
        = acc ++ (raw_jobs.filter (fun g => passesValidation cronOk g.2)).map
            (mkJobRecord container)
  | [], acc => by simp
  | g :: rest, acc => by
    rw [List.foldl_cons, validateStep_eq]
    by_cases h : passesValidation cronOk g.2 = true
    · rw [if_pos h, validate_jobs_foldl cronOk container rest (acc ++ [mkJobRecord container g])]
      simp [List.filter_cons, h]
    · rw [if_neg h, validate_jobs_foldl cronOk container rest acc]
      simp only [Bool.not_eq_true] at h
      simp [List.filter_cons, h]

theorem validate_jobs_eq (cronOk : String → Bool) (container : ContainerRef)
    (raw_jobs : List (String × RawProps)) :
    validate_jobs cronOk container raw_jobs
      = (raw_jobs.filter (fun g => passesValidation cronOk g.2)).map (mkJobRecord container) := by
  unfold validate_jobs
  rw [validate_jobs_foldl]
  simp

theorem mem_validate_jobs {cronOk : String → Bool} {container : ContainerRef}
    {raw_jobs : List (String × RawProps)} {j : JobRecord}
    (h : j ∈ validate_jobs cronOk container raw_jobs) :
    ∃ g ∈ raw_jobs, passesValidation cronOk g.2 = true ∧ j = mkJobRecord container g := by
  rw [validate_jobs_eq] at h
  rcases List.mem_map.mp h with ⟨g, hg, rfl⟩
  rcases List.mem_filter.mp hg with ⟨hmem, hpass⟩
  exact ⟨g, hmem, hpass, rfl⟩

theorem mkJobRecord_id (container : ContainerRef) (g : String × RawProps) :
    (mkJobRecord container g).id = (pyTake container.id 12 ++ "_") ++ g.1 := rfl

theorem validate_jobs_ids_start (cronOk : String → Bool) (container : ContainerRef)
    (raw_jobs : List (String × RawProps)) :
    ∀ j ∈ validate_jobs cronOk container raw_jobs,
      pyStartsWith j.id (pyTake container.id 12 ++ "_") = true := by
  intro j hj
  rcases mem_validate_jobs hj with ⟨g, _, _, rfl⟩
  rw [mkJobRecord_id]
  exact pyStartsWith_append_self _ _

theorem removeByPrefix_append (l₁ l₂ : List JobRecord) (pfx : String) :
    removeByPrefix (l₁ ++ l₂) pfx = removeByPrefix l₁ pfx ++ removeByPrefix l₂ pfx := by
  unfold removeByPrefix
  exact List.filter_append _ _

theorem removeByPrefix_all_match (l : List JobRecord) (pfx : String)
    (h : ∀ j ∈ l, pyStartsWith j.id pfx = true) :
    removeByPrefix l pfx = [] := by
  unfold removeByPrefix
  rw [List.filter_eq_nil_iff]
  intro j hj
  simp [h j hj]

/-- Helper: `sync_container` written with the removal, the gate, and the
rebuilt job list made explicit. -/
theorem sync_container_eq (cronOk : String → Bool) (container : ContainerRef)
    (table : List JobRecord) :
    sync_container cronOk container table
      = if is_scheduler_enabled container then
          removeByPrefix table (pyTake container.id 12 ++ "_")
            ++ validate_jobs cronOk container (extract_raw_jobs container.labels)
        else removeByPrefix table (pyTake container.id 12 ++ "_") := by
  unfold sync_container
  by_cases h : is_scheduler_enabled container = true <;> simp [h]

/-- C1: after `sync_container(c)`, the job ids carrying the prefix
`c.short_id ++ "_"` are exactly `c.short_id ++ "_" ++ n` for the
job-names `n` whose extracted group passes validation against `c`'s
current labels when `scheduler.enable` compares (case-insensitively)
equal to `"true"`, and there are none otherwise. -/
theorem sync_container_invariant (cronOk : String → Bool) (container : ContainerRef)
    (table : List JobRecord) :
    ((sync_container cronOk container table).filter
        (fun j => pyStartsWith j.id (pyTake container.id 12 ++ "_"))).map (fun j => j.id)
      = if is_scheduler_enabled container then
          ((extract_raw_jobs container.labels).filter
              (fun g => passesValidation cronOk g.2)).map
            (fun g => pyTake container.id 12 ++ "_" ++ g.1)
        else [] := by
  rw [sync_container_eq]
  by_cases h : is_scheduler_enabled container = true
  · rw [if_pos h, if_pos h, List.filter_append, removeByPrefix_keeps_no_match,
      List.nil_append,
      List.filter_eq_self.mpr (validate_jobs_ids_start cronOk container _),
      validate_jobs_eq, List.map_map]
    rfl
  · rw [if_neg h, if_neg h, removeByPrefix_keeps_no_match, List.map_nil]

/-- C7: reconciling the same unchanged container twice in a row leaves
the job table exactly as reconciling it once does. -/
theorem sync_container_idempotent (cronOk : String → Bool) (container : ContainerRef)
    (table : List JobRecord) :
    sync_container cronOk container (sync_container cronOk container table)
      = sync_container cronOk container table := by
  rw [sync_container_eq, sync_container_eq]
  by_cases h : is_scheduler_enabled container = true
  · simp only [h, if_true]
    rw [removeByPrefix_append, removeByPrefix_idem,
      removeByPrefix_all_match _ _ (validate_jobs_ids_start cronOk container _),
      List.append_nil]
  · simp only [h, if_false]
    exact removeByPrefix_idem table _

/-- Helper: the claim-level disablement condition (label absent or its
lowercased value differing from `"true"`) makes `is_scheduler_enabled`
return `false`. -/
theorem is_scheduler_enabled_false (container : ContainerRef)
    (h : (container.labels.lookup "scheduler.enable").all
          (fun v => pyLower v != "true") = true) :
    is_scheduler_enabled container = false := by
  unfold is_scheduler_enabled
  cases hl : container.labels.lookup "scheduler.enable" with
  | none => simp [hl]; decide
  | some v =>
    rw [hl] at h
    simp only [Option.all_some, bne_iff_ne, ne_eq, decide_eq_true_eq] at h
    simp [h]

/-- C3: with `scheduler.enable` absent, `"false"`, `"TRUE "` or anything
else whose lowercasing is not `"true"`, reconciling leaves zero job-table
entries with the container's prefix, whatever job labels it carries. -/
theorem sync_container_gated (cronOk : String → Bool) (container : ContainerRef)
    (table : List JobRecord)
    (h : (container.labels.lookup "scheduler.enable").all
          (fun v => pyLower v != "true") = true) :
    (sync_container cronOk container table).filter
        (fun j => pyStartsWith j.id (pyTake container.id 12 ++ "_")) = [] := by
  rw [sync_container_eq, if_neg]
  · exact removeByPrefix_keeps_no_match table _
  · rw [is_scheduler_enabled_false container h]
    exact Bool.false_ne_true

/-- C6: every job record accepted by `validate_jobs` carries a schedule
that the external cron-expression oracle accepts. -/
theorem validate_jobs_sound (cronOk : String → Bool) (container : ContainerRef)
    (raw_jobs : List (String × RawProps)) :
    ∀ j ∈ validate_jobs cronOk container raw_jobs, cronOk j.schedule = true := by
  intro j hj
  rcases mem_validate_jobs hj with ⟨g, _, hpass, rfl⟩
  unfold passesValidation at hpass
  have hc := (Bool.and_eq_true _ _).mp hpass
  exact hc.2

/-- C5: a raw group missing its `schedule` or its `command` contributes
no job record: no id built from that job-name appears in the validated
output (job-names are the unique keys of the extracted dict). -/
theorem validate_jobs_excludes_incomplete (cronOk : String → Bool)
    (container : ContainerRef) (raw_jobs : List (String × RawProps))
    (g : String × RawProps) (hmem : g ∈ raw_jobs)
    (hnodup : (raw_jobs.map Prod.fst).Nodup)
    (hmiss : g.2.schedule = none ∨ g.2.command = none) :
    ∀ j ∈ validate_jobs cronOk container raw_jobs,
      j.id ≠ pyTake container.id 12 ++ "_" ++ g.1 := by
  intro j hj heq
  rcases mem_validate_jobs hj with ⟨g', hg', hpass, rfl⟩
  rw [mkJobRecord_id] at heq
  have hname : g'.1 = g.1 := string_append_cancel_left heq
  have hgg : g' = g := List.inj_on_of_nodup_map hnodup hg' hmem hname
  subst hgg
  rcases hmiss with hm | hm <;> simp [passesValidation, truthy, hm] at hpass

/-- C10: a raw group whose `schedule` or `command` is present but empty
is rejected exactly like a missing one: no id built from that job-name
appears in the validated output. -/
theorem validate_jobs_excludes_empty (cronOk : String → Bool)
    (container : ContainerRef) (raw_jobs : List (String × RawProps))
    (g : String × RawProps) (hmem : g ∈ raw_jobs)
    (hnodup : (raw_jobs.map Prod.fst).Nodup)
    (hmiss : g.2.schedule = some "" ∨ g.2.command = some "") :
    ∀ j ∈ validate_jobs cronOk container raw_jobs,
      j.id ≠ pyTake container.id 12 ++ "_" ++ g.1 := by
  intro j hj heq
  rcases mem_validate_jobs hj with ⟨g', hg', hpass, rfl⟩
  rw [mkJobRecord_id] at heq
  have hname : g'.1 = g.1 := string_append_cancel_left heq
  have hgg : g' = g := List.inj_on_of_nodup_map hnodup hg' hmem hname
  subst hgg
  rcases hmiss with hm | hm <;> simp [passesValidation, truthy, hm] at hpass

/-- C2: `execute_job` never raises to its caller — the result is always
`Except.ok` — a non-zero exit code yields an error-level log line ending
in the captured output, and a runtime-level failure yields an error-level
log line ending in the exception text. -/
theorem execute_job_contained (job : JobRecord) (runResult : Except String ExecRunResult) :
    (∃ logs, execute_job job runResult = Except.ok logs)
    ∧ (∀ r : ExecRunResult, runResult = Except.ok r → r.exit_code ≠ 0 →
        ∃ s, execute_job job runResult
          = Except.ok
              [⟨LogLevel.info, "Runnig job " ++ job.id ++ " in " ++ job.container_name⟩,
               ⟨LogLevel.error, s ++ r.output⟩])
    ∧ (∀ e : String, runResult = Except.error e →
        ∃ s, execute_job job runResult
          = Except.ok
              [⟨LogLevel.info, "Runnig job " ++ job.id ++ " in " ++ job.container_name⟩,
               ⟨LogLevel.error, s ++ e⟩]) := by
  refine ⟨?_, ?_, ?_⟩
  · cases runResult with
    | error e => exact ⟨_, rfl⟩
    | ok r =>
      simp only [execute_job]
      by_cases h : r.exit_code ≠ 0
      · rw [if_pos h]; exact ⟨_, rfl⟩
      · rw [if_neg h]; exact ⟨_, rfl⟩
  · intro r hr hne
    subst hr
    simp only [execute_job]
    rw [if_pos hne]
    exact ⟨_, rfl⟩
  · intro e he
    subst he
    exact ⟨_, rfl⟩

/-- C8: `removeByPrefix` only drops entries whose id starts with the
given prefix, keeps every other entry, and is a no-op (not an error)
when nothing matches. -/
theorem removeByPrefix_frame (table : List JobRecord) (pfx : String) :
    (∀ j ∈ removeByPrefix table pfx, j ∈ table ∧ pyStartsWith j.id pfx = false)
    ∧ (∀ j ∈ table, pyStartsWith j.id pfx = false → j ∈ removeByPrefix table pfx)
    ∧ (∀ j ∈ table, j ∉ removeByPrefix table pfx → pyStartsWith j.id pfx = true)
    ∧ ((∀ j ∈ table, pyStartsWith j.id pfx = false) → removeByPrefix table pfx = table) := by
  refine ⟨?_, ?_, ?_, ?_⟩
  · intro j hj
    rcases List.mem_filter.mp hj with ⟨hmem, hkeep⟩
    exact ⟨hmem, by simpa using hkeep⟩
  · intro j hj hnot
    exact List.mem_filter.mpr ⟨hj, by simp [hnot]⟩
  · intro j hj hout
    by_contra hnot
    exact hout (List.mem_filter.mpr ⟨hj, by simp [Bool.not_eq_true] at hnot ⊢; exact hnot⟩)
  · intro hall
    exact List.filter_eq_self.mpr (fun j hj => by simp [hall j hj])

/-- Helper: on a `stop`/`die`/`destroy`/`pause` event the event loop
takes its removal branch (after the unconditional container fetch). -/
theorem handle_event_remove_eq (cronOk : String → Bool)
    (resolve : String → Option ContainerRef) (table : List JobRecord)
    (event : LifecycleEvent)
    (h : event.action = "stop" ∨ event.action = "die" ∨ event.action = "destroy"
      ∨ event.action = "pause") :
    handle_event cronOk resolve table event
      = { lookups := [pyTake event.id 12]
        , table := removeByPrefix table (pyTake event.id 12 ++ "_") } := by
  have hfirst : ¬((event.action = "start" ∨ event.action = "update"
      ∨ event.action = "unpause") ∧ (resolve (pyTake event.id 12)).isSome = true) := by
    rintro ⟨h1 | h1 | h1, -⟩ <;>
      rcases h with h2 | h2 | h2 | h2 <;> rw [h1] at h2 <;> exact absurd h2 (by decide)
  unfold handle_event
  rw [if_neg hfirst, if_pos h]

/-- C4 (amended): on a `stop`/`die`/`destroy`/`pause` event the event
loop removes exactly the entries whose id starts with the short id plus
`"_"` (and a no-match removal is a no-op, no error); the lookup it makes
is only the unconditional name-resolving fetch, never used for the
removal. -/
theorem handle_event_removal (cronOk : String → Bool)
    (resolve : String → Option ContainerRef) (table : List JobRecord)
    (event : LifecycleEvent)
    (h : event.action = "stop" ∨ event.action = "die" ∨ event.action = "destroy"
      ∨ event.action = "pause") :
    (handle_event cronOk resolve table event).table
        = removeByPrefix table (pyTake event.id 12 ++ "_")
    ∧ ((∀ j ∈ table, pyStartsWith j.id (pyTake event.id 12 ++ "_") = false) →
        (handle_event cronOk resolve table event).table = table) := by
  rw [handle_event_remove_eq cronOk resolve table event h]
  refine ⟨rfl, ?_⟩
  intro hall
  exact List.filter_eq_self.mpr (fun j hj => by simp [hall j hj])

/-- C4 (counterexample): contrary to the claim, a `die` event does cause
a container lookup — `watch_events` fetches the container for every
event before dispatching on the action. -/
theorem handle_event_die_looks_up :
    (handle_event (fun _ => true) (fun _ => none) []
        { action := "die", id := "abcdef0123456789" }).lookups ≠ [] := by decide

/-! Theory of `splitChars`/`pySplit`, needed to characterize
`extract_raw_jobs` (claim C9). -/

theorem splitChars_ne_nil (sep : Char) : ∀ l, splitChars sep l ≠ []
  | [] => by simp [splitChars]
  | c :: rest => by
    unfold splitChars
    by_cases h : c = sep
    · simp [h]
    · rw [if_neg h]
      cases hs : splitChars sep rest with
      | nil => simp
      | cons s ss => simp

/-- Rejoining the pieces with the separator, the inverse of `splitChars`. -/
def unsplit (sep : Char) : List (List Char) → List Char
  | [] => []
  | [s] => s
  | s :: ss => s ++ sep :: unsplit sep ss

theorem unsplit_cons₂ (sep : Char) (s y : List Char) (t : List (List Char)) :
    unsplit sep (s :: y :: t) = s ++ sep :: unsplit sep (y :: t) := rfl

theorem unsplit_splitChars (sep : Char) : ∀ l, unsplit sep (splitChars sep l) = l
  | [] => rfl
  | c :: rest => by
    unfold splitChars
    by_cases h : c = sep
    · rw [if_pos h]
      cases hs : splitChars sep rest with
      | nil => exact absurd hs (splitChars_ne_nil sep rest)
      | cons y t =>
        rw [unsplit_cons₂, List.nil_append, h]
        have ih := unsplit_splitChars sep rest
        rw [hs] at ih
        rw [ih]
    · rw [if_neg h]
      cases hs : splitChars sep rest with
      | nil => exact absurd hs (splitChars_ne_nil sep rest)
      | cons y t =>
        have ih := unsplit_splitChars sep rest
        rw [hs] at ih
        cases t with
        | nil => show c :: y = c :: rest; rw [← ih]; rfl
        | cons z t' =>
          rw [unsplit_cons₂]
          show c :: (y ++ sep :: unsplit sep (z :: t')) = c :: rest
          rw [← unsplit_cons₂, ih]

theorem splitChars_sep_not_mem (sep : Char) :
    ∀ l s, s ∈ splitChars sep l → sep ∉ s
  | [], s, hs => by
    simp [splitChars] at hs
    simp [hs]
  | c :: rest, s, hs => by
    unfold splitChars at hs
    by_cases h : c = sep
    · rw [if_pos h] at hs
      rcases List.mem_cons.mp hs with rfl | hmem
      · simp
      · exact splitChars_sep_not_mem sep rest s hmem
    · rw [if_neg h] at hs
      cases hsplit : splitChars sep rest with
      | nil => exact absurd hsplit (splitChars_ne_nil sep rest)
      | cons y t =>
        rw [hsplit] at hs
        rcases List.mem_cons.mp hs with rfl | hmem
        · intro hmem2
          rcases List.mem_cons.mp hmem2 with rfl | hy
          · exact h rfl
          · exact splitChars_sep_not_mem sep rest y (hsplit ▸ List.mem_cons_self y t) hy
        · exact splitChars_sep_not_mem sep rest s (hsplit ▸ List.mem_cons_of_mem y hmem)

theorem splitChars_no_sep (sep : Char) : ∀ l, sep ∉ l → splitChars sep l = [l]
  | [], _ => rfl
  | c :: rest, h => by
    unfold splitChars
    rw [if_neg (by intro hc; exact h (hc ▸ List.mem_cons_self c rest)),
      splitChars_no_sep sep rest (fun hmem => h (List.mem_cons_of_mem c hmem))]

theorem splitChars_append_sep (sep : Char) :
    ∀ (la rest : List Char), sep ∉ la →
      splitChars sep (la ++ sep :: rest) = la :: splitChars sep rest
  | [], rest, _ => by simp [splitChars]
  | c :: la, rest, h => by
    have hc : ¬(c = sep) := fun hc => h (hc ▸ List.mem_cons_self c la)
    have ih := splitChars_append_sep sep la rest (fun hmem => h (List.mem_cons_of_mem c hmem))
    show splitChars sep (c :: (la ++ sep :: rest)) = (c :: la) :: splitChars sep rest
    simp only [splitChars]
    rw [if_neg hc, ih]

theorem splitChars_eq_three (sep : Char) (l la lb lc : List Char) :
    splitChars sep l = [la, lb, lc] ↔
      l = la ++ sep :: (lb ++ sep :: lc) ∧ sep ∉ la ∧ sep ∉ lb ∧ sep ∉ lc := by
  constructor
  · intro h
    refine ⟨?_, ?_, ?_, ?_⟩
    · have := unsplit_splitChars sep l
      rw [h] at this
      rw [← this]
      rfl
    · exact splitChars_sep_not_mem sep l la (h ▸ (by simp))
    · exact splitChars_sep_not_mem sep l lb (h ▸ (by simp))
    · exact splitChars_sep_not_mem sep l lc (h ▸ (by simp))
  · rintro ⟨rfl, h1, h2, h3⟩
    rw [splitChars_append_sep sep la _ h1, splitChars_append_sep sep lb _ h2,
      splitChars_no_sep sep lc h3]

theorem isPrefixOf_seg_eq (sep : Char) :
    ∀ (q a t : List Char), sep ∉ q → sep ∉ a →
      (q ++ [sep]).isPrefixOf (a ++ sep :: t) = true → a = q
  | [], a, t, _, ha, hp => by
    cases a with
    | nil => rfl
    | cons x a' =>
      exfalso
      have : (sep == x && List.isPrefixOf [] (a' ++ sep :: t)) = true := hp
      have hx : sep = x := by
        have := (Bool.and_eq_true _ _).mp this |>.1
        exact eq_of_beq this
      exact ha (hx ▸ List.mem_cons_self x a')
  | c :: q', a, t, hq, ha, hp => by
    cases a with
    | nil =>
      exfalso
      have : (c == sep && List.isPrefixOf (q' ++ [sep]) t) = true := hp
      have hc : c = sep := eq_of_beq ((Bool.and_eq_true _ _).mp this |>.1)
      exact hq (hc ▸ List.mem_cons_self c q')
    | cons x a' =>
      have : (c == x && List.isPrefixOf (q' ++ [sep]) (a' ++ sep :: t)) = true := hp
      have hcx : c = x := eq_of_beq ((Bool.and_eq_true _ _).mp this |>.1)
      have hrec := isPrefixOf_seg_eq sep q' a' t
        (fun hmem => hq (List.mem_cons_of_mem c hmem))
        (fun hmem => ha (List.mem_cons_of_mem x hmem))
        ((Bool.and_eq_true _ _).mp this |>.2)
      rw [hrec, hcx]

theorem string_mk_data (s : String) : (⟨s.data⟩ : String) = s := by
  cases s
  rfl

theorem pySplit_eq_three_data {k a b c : String} {sep : Char}
    (h : pySplit k sep = [a, b, c]) :
    splitChars sep k.data = [a.data, b.data, c.data] := by
  unfold pySplit at h
  cases hs : splitChars sep k.data with
  | nil => exact absurd hs (splitChars_ne_nil sep k.data)
  | cons la t0 =>
    rw [hs] at h
    cases t0 with
    | nil => simp at h
    | cons lb t1 =>
      cases t1 with
      | nil => simp at h
      | cons lc t2 =>
        cases t2 with
        | nil =>
          simp only [List.map_cons, List.map_nil, List.cons.injEq, and_true] at h
          rcases h with ⟨ha, hb, hc⟩
          rw [← ha, ← hb, ← hc]
        | cons ld t3 => simp at h

theorem scheduler_dot_data : ("scheduler.".data : List Char) = "scheduler".data ++ ['.'] := by
  decide

theorem pyStartsWith_of_split_scheduler {k b c : String}
    (h : pySplit k '.' = ["scheduler", b, c]) :
    pyStartsWith k "scheduler." = true := by
  have hd := pySplit_eq_three_data h
  have h3 := (splitChars_eq_three '.' k.data _ _ _).mp hd
  unfold pyStartsWith
  rw [h3.1, scheduler_dot_data]
  have hassoc : "scheduler".data ++ '.' :: (b.data ++ '.' :: c.data)
      = ("scheduler".data ++ ['.']) ++ (b.data ++ '.' :: c.data) := by simp
  rw [hassoc]
  exact isPrefixOf_append_self _ _

theorem split_head_eq_scheduler {k a b c : String}
    (hsw : pyStartsWith k "scheduler." = true)
    (h : pySplit k '.' = [a, b, c]) : a = "scheduler" := by
  have hd := pySplit_eq_three_data h
  have h3 := (splitChars_eq_three '.' k.data _ _ _).mp hd
  apply string_ext_data
  apply isPrefixOf_seg_eq '.' "scheduler".data a.data (b.data ++ '.' :: c.data)
  · decide
  · exact h3.2.1
  · unfold pyStartsWith at hsw
    rw [h3.1, scheduler_dot_data] at hsw
    exact hsw

/-! Effect of one dict update on `hasEntry`. -/

theorem bool_shuffle (a x s r : Bool) :
    ((a && (x || s)) || r) = (((a && x) || r) || (a && s)) := by
  cases a <;> cases x <;> cases s <;> cases r <;> rfl

theorem propPresent_set_schedule (prop : String) (p : RawProps) (v : String) :
    propPresent prop { p with schedule := some v }
      = (propPresent prop p || prop == "schedule") := by
  unfold propPresent
  by_cases h1 : prop = "schedule"
  · simp [h1]
  · by_cases h2 : prop = "command" <;> simp [h1, h2]

theorem propPresent_set_command (prop : String) (p : RawProps) (v : String) :
    propPresent prop { p with command := some v }
      = (propPresent prop p || prop == "command") := by
  unfold propPresent
  by_cases h1 : prop = "schedule"
  · simp [h1]
  · by_cases h2 : prop = "command" <;> simp [h1, h2]

theorem propPresent_fresh_schedule (prop v : String) :
    propPresent prop (⟨some v, none⟩ : RawProps) = (prop == "schedule") := by
  unfold propPresent
  by_cases h1 : prop = "schedule"
  · simp [h1]
  · by_cases h2 : prop = "command" <;> simp [h1, h2]

theorem propPresent_fresh_command (prop v : String) :
    propPresent prop (⟨none, some v⟩ : RawProps) = (prop == "command") := by
  unfold propPresent
  by_cases h1 : prop = "schedule"
  · simp [h1]
  · by_cases h2 : prop = "command" <;> simp [h1, h2]

theorem hasEntry_updateGroup_schedule (jn v name prop : String) :
    ∀ groups, hasEntry (updateGroup groups jn "schedule" v) name prop
      = (hasEntry groups name prop || (jn == name && prop == "schedule")) := by
  intro groups
  induction groups with
  | nil =>
    show hasEntry (if "schedule" = "schedule" then [(jn, ⟨some v, none⟩)]
        else [(jn, ⟨none, some v⟩)]) name prop = _
    rw [if_pos rfl]
    simp [hasEntry, propPresent_fresh_schedule]
  | cons g rest ih =>
    obtain ⟨n, p⟩ := g
    show hasEntry (if n = jn then
        (if "schedule" = "schedule" then (n, { p with schedule := some v }) :: rest
         else (n, { p with command := some v }) :: rest)
      else (n, p) :: updateGroup rest jn "schedule" v) name prop = _
    rw [if_pos rfl]
    by_cases hn : n = jn
    · rw [if_pos hn]
      subst hn
      simp only [hasEntry, List.any_cons, propPresent_set_schedule]
      exact bool_shuffle _ _ _ _
    · rw [if_neg hn]
      simp only [hasEntry, List.any_cons]
      simp only [hasEntry] at ih
      rw [ih, ← Bool.or_assoc]

theorem hasEntry_updateGroup_command (jn v name prop : String) :
    ∀ groups, hasEntry (updateGroup groups jn "command" v) name prop
      = (hasEntry groups name prop || (jn == name && prop == "command")) := by
  intro groups
  induction groups with
  | nil =>
    show hasEntry (if "command" = "schedule" then [(jn, ⟨some v, none⟩)]
        else [(jn, ⟨none, some v⟩)]) name prop = _
    rw [if_neg (by decide)]
    simp [hasEntry, propPresent_fresh_command]
  | cons g rest ih =>
    obtain ⟨n, p⟩ := g
    show hasEntry (if n = jn then
        (if "command" = "schedule" then (n, { p with schedule := some v }) :: rest
         else (n, { p with command := some v }) :: rest)
      else (n, p) :: updateGroup rest jn "command" v) name prop = _
    rw [if_neg (show ¬("command" = "schedule") by decide)]
    by_cases hn : n = jn
    · rw [if_pos hn]
      subst hn
      simp only [hasEntry, List.any_cons, propPresent_set_command]
      exact bool_shuffle _ _ _ _
    · rw [if_neg hn]
      simp only [hasEntry, List.any_cons]
      simp only [hasEntry] at ih
      rw [ih, ← Bool.or_assoc]


theorem hasEntry_extractStep (groups : List (String × RawProps)) (kv : String × String)
    (name prop : String) :
    hasEntry (extractStep groups kv) name prop
      = (hasEntry groups name prop || isJobPropKey kv.1 name prop) := by
  by_cases hsw : pyStartsWith kv.1 "scheduler." = true
  · have hb : (!pyStartsWith kv.1 "scheduler.") = false := by rw [hsw]; rfl
    unfold extractStep
    rw [hb]
    simp only [Bool.false_eq_true, if_false]
    cases hs0 : pySplit kv.1 '.' with
    | nil =>
      simp [isJobPropKey, hs0]
    | cons a t0 =>
      cases t0 with
      | nil =>
        simp [isJobPropKey, hs0]
      | cons b t1 =>
        cases t1 with
        | nil =>
          simp [isJobPropKey, hs0]
        | cons c t2 =>
          cases t2 with
          | nil =>
            show hasEntry (if c = "schedule" ∨ c = "command"
                then updateGroup groups b c kv.2 else groups) name prop = _
            have ha : a = "scheduler" := split_head_eq_scheduler hsw hs0
            subst ha
            by_cases hok : c = "schedule" ∨ c = "command"
            · simp only [if_pos hok]
              rcases hok with rfl | rfl
              · rw [hasEntry_updateGroup_schedule]
                simp only [isJobPropKey, hs0]
                by_cases hbn : b = name
                · subst hbn
                  by_cases hcp : prop = "schedule"
                  · subst hcp; simp
                  · have h1 : (prop == "schedule") = false := beq_eq_false_iff_ne.mpr hcp
                    have h2 : ("schedule" == prop) = false :=
                      beq_eq_false_iff_ne.mpr (Ne.symm hcp)
                    simp [h1, h2]
                · have h3 : (b == name) = false := beq_eq_false_iff_ne.mpr hbn
                  simp [h3]
              · rw [hasEntry_updateGroup_command]
                simp only [isJobPropKey, hs0]
                by_cases hbn : b = name
                · subst hbn
                  by_cases hcp : prop = "command"
                  · subst hcp; simp
                  · have h1 : (prop == "command") = false := beq_eq_false_iff_ne.mpr hcp
                    have h2 : ("command" == prop) = false :=
                      beq_eq_false_iff_ne.mpr (Ne.symm hcp)
                    simp [h1, h2]
                · have h3 : (b == name) = false := beq_eq_false_iff_ne.mpr hbn
                  simp [h3]
            · simp only [if_neg hok]
              have hkey : isJobPropKey kv.1 name prop = false := by
                simp only [isJobPropKey, hs0]
                by_cases hcp : c = prop
                · subst hcp
                  have h1 : ¬(c = "schedule") := fun hc => hok (Or.inl hc)
                  have h2 : ¬(c = "command") := fun hc => hok (Or.inr hc)
                  simp [h1, h2]
                · simp
                  intro _ hc
                  exact absurd hc hcp
              rw [hkey, Bool.or_false]
          | cons d t3 =>
            simp [isJobPropKey, hs0]
  · have hfalse : pyStartsWith kv.1 "scheduler." = false := Bool.eq_false_iff.mpr hsw
    have hkey : isJobPropKey kv.1 name prop = false := by
      unfold isJobPropKey
      cases hbe : (pySplit kv.1 '.' == ["scheduler", name, prop]) with
      | false => rfl
      | true =>
        exact absurd (pyStartsWith_of_split_scheduler (eq_of_beq hbe)) hsw
    unfold extractStep
    rw [hfalse]
    simp [hkey]


theorem hasEntry_foldl (name prop : String) :
    ∀ (labels : List (String × String)) (groups : List (String × RawProps)),
      hasEntry (labels.foldl extractStep groups) name prop
        = (hasEntry groups name prop
            || labels.any (fun kv => isJobPropKey kv.1 name prop))
  | [], groups => by simp
  | kv :: rest, groups => by
    rw [List.foldl_cons, hasEntry_foldl name prop rest (extractStep groups kv),
      hasEntry_extractStep, List.any_cons]
    exact Bool.or_assoc _ _ _

/-- C9: the extracted dict records property `prop` for job-name `name`
exactly when some label key splits on `.` into exactly
`["scheduler", name, prop]` with `prop` one of `schedule`/`command`; in
particular `scheduler.enable`, keys with a different number of segments,
and other property names contribute nothing. -/
theorem extract_raw_jobs_spec (labels : List (String × String)) (name prop : String) :
    hasEntry (extract_raw_jobs labels) name prop = true ↔
      ∃ kv ∈ labels, pySplit kv.1 '.' = ["scheduler", name, prop]
        ∧ (prop = "schedule" ∨ prop = "command") := by
  unfold extract_raw_jobs
  rw [hasEntry_foldl]
  simp only [hasEntry, List.any_nil, Bool.false_or]
  rw [List.any_eq_true]
  constructor
  · rintro ⟨kv, hmem, hkey⟩
    unfold isJobPropKey at hkey
    have h1 := (Bool.and_eq_true _ _).mp hkey
    refine ⟨kv, hmem, eq_of_beq h1.1, ?_⟩
    rcases (Bool.or_eq_true _ _).mp h1.2 with h | h
    · exact Or.inl (eq_of_beq h)
    · exact Or.inr (eq_of_beq h)
  · rintro ⟨kv, hmem, hsplit, hok⟩
    refine ⟨kv, hmem, ?_⟩
    unfold isJobPropKey
    rw [hsplit]
    simp only [beq_self_eq_true, Bool.true_and]
    rcases hok with rfl | rfl <;> simp


/-! Concrete witnesses instantiating the theorems above. -/

/-- Witness for C3: `"TRUE "` (trailing space) counts as disabled, and
reconciling leaves no entry with the container's prefix, even though the
container carries a complete job label pair. -/
theorem sync_container_gated_witness :
    ((disabledContainer.labels.lookup "scheduler.enable").all
        (fun v => pyLower v != "true") = true)
    ∧ (sync_container sampleCron disabledContainer sampleTable).filter
        (fun j => pyStartsWith j.id (pyTake disabledContainer.id 12 ++ "_")) = [] :=
  ⟨by decide,
   sync_container_gated sampleCron disabledContainer sampleTable (by decide)⟩

/-- Witness for C6: the accepted record of the sample container carries a
schedule the oracle accepts. -/
theorem validate_jobs_sound_witness :
    (mkJobRecord sampleContainer
        ("backup", ⟨some "0 2 * * *", some "tar czf /b.tgz /data"⟩)
      ∈ validate_jobs sampleCron sampleContainer
          [("backup", ⟨some "0 2 * * *", some "tar czf /b.tgz /data"⟩)])
    ∧ sampleCron (mkJobRecord sampleContainer
        ("backup", ⟨some "0 2 * * *", some "tar czf /b.tgz /data"⟩)).schedule = true :=
  ⟨by decide,
   validate_jobs_sound sampleCron sampleContainer
     [("backup", ⟨some "0 2 * * *", some "tar czf /b.tgz /data"⟩)] _ (by decide)⟩

/-- Witness for C5: the group `broken` lacking a schedule yields no
record with id `abcdef012345_broken`. -/
theorem validate_jobs_excludes_incomplete_witness :
    (("broken", (⟨none, some "echo hi"⟩ : RawProps)) ∈ rawSample)
    ∧ (rawSample.map Prod.fst).Nodup
    ∧ ∀ j ∈ validate_jobs sampleCron sampleContainer rawSample,
        j.id ≠ pyTake sampleContainer.id 12 ++ "_" ++ "broken" :=
  ⟨by decide, by decide,
   validate_jobs_excludes_incomplete sampleCron sampleContainer rawSample
     ("broken", ⟨none, some "echo hi"⟩) (by decide) (by decide) (Or.inl rfl)⟩

/-- Witness for C10: the group `empty` with an empty-string schedule
yields no record with id `abcdef012345_empty`. -/
theorem validate_jobs_excludes_empty_witness :
    (("empty", (⟨some "", some "echo hi"⟩ : RawProps)) ∈ rawSampleEmpty)
    ∧ (rawSampleEmpty.map Prod.fst).Nodup
    ∧ ∀ j ∈ validate_jobs sampleCron sampleContainer rawSampleEmpty,
        j.id ≠ pyTake sampleContainer.id 12 ++ "_" ++ "empty" :=
  ⟨by decide, by decide,
   validate_jobs_excludes_empty sampleCron sampleContainer rawSampleEmpty
     ("empty", ⟨some "", some "echo hi"⟩) (by decide) (by decide) (Or.inl rfl)⟩

/-- Witness for C2: the spec's scenario, exit code 137 — the call returns
normally and logs an error line ending in the captured output. -/
theorem execute_job_contained_witness :
    ((137 : Int) ≠ 0)
    ∧ ∃ s, execute_job sampleJob (Except.ok ⟨137, "killed"⟩)
        = Except.ok
            [⟨LogLevel.info,
              "Runnig job " ++ sampleJob.id ++ " in " ++ sampleJob.container_name⟩,
             ⟨LogLevel.error,
              s ++ (ExecRunResult.mk 137 "killed").output⟩] :=
  ⟨by decide,
   (execute_job_contained sampleJob (Except.ok ⟨137, "killed"⟩)).2.1
     ⟨137, "killed"⟩ rfl (by decide)⟩

/-- Witness for C8: the entry `abc1234_x` survives
`removeByPrefix "abc123_"`, which is a no-op on that table. -/
theorem removeByPrefix_frame_witness :
    (strayJob ∈ removeByPrefix [strayJob] "abc123_")
    ∧ removeByPrefix [strayJob] "abc123_" = [strayJob] :=
  ⟨(removeByPrefix_frame [strayJob] "abc123_").2.1 strayJob (by decide) (by decide),
   (removeByPrefix_frame [strayJob] "abc123_").2.2.2 (by decide)⟩

/-- Witness for C4 (amended): a concrete `die` event removes exactly the
jobs carrying the short id's prefix. -/
theorem handle_event_removal_witness :
    (handle_event sampleCron (fun _ => none) sampleTable
        { action := "die", id := "ffff00000000aaaa" }).table
      = removeByPrefix sampleTable (pyTake "ffff00000000aaaa" 12 ++ "_") :=
  (handle_event_removal sampleCron (fun _ => none) sampleTable
    { action := "die", id := "ffff00000000aaaa" } (Or.inr (Or.inl rfl))).1

/-- Witness for C9: the key `scheduler.backup.schedule` produces the
`schedule` entry for job `backup`. -/
theorem extract_raw_jobs_spec_witness :
    hasEntry (extract_raw_jobs [("scheduler.backup.schedule", "0 2 * * *")])
      "backup" "schedule" = true :=
  (extract_raw_jobs_spec [("scheduler.backup.schedule", "0 2 * * *")]
      "backup" "schedule").mpr
    ⟨("scheduler.backup.schedule", "0 2 * * *"), by decide, by decide, Or.inl rfl⟩
